import Mathlib

/-!
Shallow embedding of the typed client layer over the leveldb engine:
write batches (database/batch.rs), snapshots (database/snapshots.rs)
and compaction requests (database/compaction.rs). The engine itself is
an external collaborator; its contract, and the repository files that
are not part of the three modules above (kv.rs, iterator.rs, options.rs,
error.rs, key.rs), are modelled from the specification and marked as
such in their doc comments.
-/

/-- Raw byte sequences exchanged with the native engine. -/
abbrev ByteSeq : Type := List Nat

/-- Key codec capability required from callers: a pure pair of total
conversions with the stated round-trip law. Modelled from the spec:
the db-key Key trait (as_ref and From) lives outside the three
modules in src. -/
structure Key (K : Type) where
  toBytes : K → ByteSeq
  fromBytes : ByteSeq → K
  round_trip : ∀ k, fromBytes (toBytes k) = k

/-- One staged operation inside the native write-batch accumulator:
either a put of raw key and value bytes or a delete of raw key bytes. -/
inductive BatchOp
  | put (key : ByteSeq) (value : ByteSeq)
  | delete (key : ByteSeq)

/-- Writebatch from batch.rs: wraps one native accumulator resource.
The resourceId field models the identity of the native allocation; ops
models the ordered sequence of staged operations that the native
resource holds (append order preserved, per the engine contract). -/
structure Writebatch (K : Type) where
  resourceId : Nat
  ops : List BatchOp

/-- Writebatch::new from batch.rs: allocates a fresh native accumulator
(the id names the fresh allocation) holding zero operations. -/
def Writebatch.new (K : Type) (id : Nat) : Writebatch K :=
  Writebatch.mk id []

/-- Writebatch::clear from batch.rs: asks the native layer to reset the
accumulator to the empty-operations state; the native resource itself
is kept (same resourceId), not reallocated. -/
def Writebatch.clear {K : Type} (b : Writebatch K) : Writebatch K :=
  Writebatch.mk b.resourceId []

/-- Writebatch::put from batch.rs: converts the typed key to bytes via
the codec (key.as_ref) and appends a Put of those bytes and the value
bytes to the native accumulator. -/
def Writebatch.put {K : Type} (codec : Key K) (b : Writebatch K) (key : K)
    (value : ByteSeq) : Writebatch K :=
  Writebatch.mk b.resourceId (b.ops ++ [BatchOp.put (codec.toBytes key) value])

/-- Writebatch::delete from batch.rs: converts the typed key to bytes
via the codec and appends a Delete of those bytes. -/
def Writebatch.delete {K : Type} (codec : Key K) (b : Writebatch K)
    (key : K) : Writebatch K :=
  Writebatch.mk b.resourceId (b.ops ++ [BatchOp.delete (codec.toBytes key)])

/-- Observable engine state. Modelled from the spec: the engine is a
sorted key-value store reached only through its native entry points;
we model its observable content as a journal of writes, newest first,
where a none value records a deletion. -/
abbrev DBState : Type := List (ByteSeq × Option ByteSeq)

/-- Point lookup over the modelled engine state: the newest journal
entry for the key decides; absent keys read as none. -/
def dbGet : DBState → ByteSeq → Option ByteSeq
  | [], _ => none
  | (k, v) :: rest, q => if k = q then v else dbGet rest q

/-- Effect of one staged batch operation on the engine state. Modelled
from the spec: put makes the key present with the value, delete makes
it absent. -/
def applyOp (s : DBState) : BatchOp → DBState
  | BatchOp.put k v => (k, some v) :: s
  | BatchOp.delete k => (k, none) :: s

/-- Effect of a whole batch, applied in append order. Modelled from the
spec: within a batch, operations are applied in append order. -/
def applyBatch (s : DBState) (ops : List BatchOp) : DBState :=
  ops.foldl applyOp s

/-- WriteOptions from options.rs. Modelled from the spec: an ephemeral
value carrying the sync-durability flag. -/
structure WriteOptions where
  sync : Bool

/-- Error from error.rs. Modelled from the spec: a typed error carrying
the engine diagnostic text (Error::new_from_i8 copies the native
message). -/
structure Error where
  message : String

/-- Everything observable about one submission through the write path:
the Result returned to the caller, the engine state afterwards, and how
many times the native write entry point was invoked. -/
structure WriteOutcome where
  result : Except Error Unit
  state : DBState
  engineCalls : Nat

/-- Database::write from batch.rs: builds native write options, invokes
leveldb_write exactly once with the batch resource and an error
out-pointer, then branches on whether that pointer equals the null
pointer — Ok on null, otherwise an Error built from the diagnostic
text. The engine write itself is modelled from the spec: on success the
whole batch is applied atomically in append order, on failure the state
is untouched. The engineErr argument models the error out-pointer the
engine fills (none is the null pointer). -/
def Database.write {K : Type} (engineErr : Option String) (db : DBState)
    (options : WriteOptions) (batch : Writebatch K) : WriteOutcome :=
  match engineErr with
  | none => WriteOutcome.mk (Except.ok ()) (applyBatch db batch.ops) 1
  | some m => WriteOutcome.mk (Except.error (Error.mk m)) db 1

/-- Snapshot from snapshots.rs: wraps one native snapshot resource.
Modelled from the spec: the native marker makes the engine serve reads
against the state current at creation time, so the observable content
of the marker is that frozen state. -/
structure Snapshot where
  frozen : DBState

/-- ReadOptions from options.rs. Modelled from the spec: an ephemeral
value carrying the cache-fill policy, the verify-checksum policy and an
optional snapshot reference (none reads the live state). -/
structure ReadOptions where
  fillCache : Bool
  verifyChecksums : Bool
  snapshot : Option Snapshot

/-- The state a read with the given options observes. Modelled from the
spec: a read whose options carry a snapshot observes that snapshot
frozen state, otherwise the live state. -/
def readView (db : DBState) (options : ReadOptions) : DBState :=
  match options.snapshot with
  | some s => s.frozen
  | none => db

/-- Database::get from kv.rs. Modelled from the spec: converts the
typed key to bytes via the codec and asks the engine for the value
under the options view; returns the value when present, none when
absent, or a typed Error carrying the engine diagnostic text when the
engine reports a failure (modelled by the engineErr argument). -/
def Database.get {K : Type} (codec : Key K) (engineErr : Option String)
    (db : DBState) (options : ReadOptions) (key : K) :
    Except Error (Option ByteSeq) :=
  match engineErr with
  | some m => Except.error (Error.mk m)
  | none => Except.ok (dbGet (readView db options) (codec.toBytes key))

/-- Strict lexicographic order on raw byte sequences, the engine
ordering of the sorted key space. -/
def ltBytes : ByteSeq → ByteSeq → Bool
  | _, [] => false
  | [], _ :: _ => true
  | a :: as, b :: bs => if a < b then true else if a = b then ltBytes as bs else false

/-- Insertion of a key into a list kept sorted by ltBytes. -/
def insertKey (k : ByteSeq) : List ByteSeq → List ByteSeq
  | [] => [k]
  | x :: xs => if ltBytes k x then k :: x :: xs else x :: insertKey k xs

/-- Insertion sort of keys by ltBytes. -/
def sortKeys (l : List ByteSeq) : List ByteSeq :=
  l.foldr insertKey []

/-- The distinct keys that read as present in a state. -/
def presentKeys (s : DBState) : List ByteSeq :=
  ((s.map Prod.fst).dedup).filter (fun k => (dbGet s k).isSome)

/-- Forward-ordered sequence of present key and value pairs of a state,
sorted by key. Modelled from the spec: the engine iterator yields the
key space in forward key order. -/
def sortedEntries (s : DBState) : List (ByteSeq × ByteSeq) :=
  (sortKeys (presentKeys s)).filterMap (fun k => (dbGet s k).map (fun v => (k, v)))

/-- Database::iter from iterator.rs. Modelled from the spec: a lazy
forward sequence of typed key and value pairs over the options view,
keys reconstructed from bytes via the codec. -/
def Database.iter {K : Type} (codec : Key K) (db : DBState)
    (options : ReadOptions) : List (K × ByteSeq) :=
  (sortedEntries (readView db options)).map (fun p => (codec.fromBytes p.1, p.2))

/-- Database::keys_iter from iterator.rs. Modelled from the spec: the
key-only forward sequence over the options view. -/
def Database.keys_iter {K : Type} (codec : Key K) (db : DBState)
    (options : ReadOptions) : List K :=
  (sortedEntries (readView db options)).map (fun p => codec.fromBytes p.1)

/-- Database::value_iter from iterator.rs. Modelled from the spec: the
value-only forward sequence over the options view. -/
def Database.value_iter {K : Type} (codec : Key K) (db : DBState)
    (options : ReadOptions) : List ByteSeq :=
  (sortedEntries (readView db options)).map Prod.snd

/-- Database::snapshot from snapshots.rs: calls leveldb_create_snapshot
on the handle and wraps the returned marker. Modelled from the spec on
the engine side: the marker captures the state current at creation. -/
def Database.snapshot (db : DBState) : Snapshot :=
  Snapshot.mk db

/-- The one amendment every Snapshot read performs before delegating,
from snapshots.rs: options.snapshot is assigned Some of this snapshot,
the other two option fields are kept. -/
def setSnapshot (options : ReadOptions) (s : Snapshot) : ReadOptions :=
  ReadOptions.mk options.fillCache options.verifyChecksums (some s)

/-- Snapshot::get from snapshots.rs: inserts this snapshot into the
supplied ReadOptions, then delegates to Database::get. -/
def Snapshot.get {K : Type} (codec : Key K) (engineErr : Option String)
    (db : DBState) (s : Snapshot) (options : ReadOptions) (key : K) :
    Except Error (Option ByteSeq) :=
  Database.get codec engineErr db (setSnapshot options s) key

/-- Snapshot::iter from the Iterable impl in snapshots.rs: inserts this
snapshot into the options, then delegates to Database::iter. -/
def Snapshot.iter {K : Type} (codec : Key K) (db : DBState) (s : Snapshot)
    (options : ReadOptions) : List (K × ByteSeq) :=
  Database.iter codec db (setSnapshot options s)

/-- Snapshot::keys_iter from the Iterable impl in snapshots.rs: inserts
this snapshot into the options, then delegates to Database::keys_iter. -/
def Snapshot.keys_iter {K : Type} (codec : Key K) (db : DBState)
    (s : Snapshot) (options : ReadOptions) : List K :=
  Database.keys_iter codec db (setSnapshot options s)

/-- Snapshot::value_iter from the Iterable impl in snapshots.rs:
inserts this snapshot into the options, then delegates to
Database::value_iter. -/
def Snapshot.value_iter {K : Type} (codec : Key K) (db : DBState)
    (s : Snapshot) (options : ReadOptions) : List ByteSeq :=
  Database.value_iter codec db (setSnapshot options s)

/-- WritebatchIterator from batch.rs: the visitor interface with a put
callback and a deleted callback; S is the visitor state the callbacks
accumulate into. -/
structure WritebatchIterator (K : Type) (S : Type) where
  put : S → K → ByteSeq → S
  deleted : S → K → S

/-- Native batch walk leveldb_writebatch_iterate. Modelled from the
spec: invokes the raw put callback or the raw delete callback once per
staged operation, in append order, synchronously, threading the user
state through; the staged operations themselves are not modified. -/
def nativeBatchIterate {S : Type} (putCb : S → ByteSeq → ByteSeq → S)
    (deleteCb : S → ByteSeq → S) (ops : List BatchOp) (st : S) : S :=
  ops.foldl
    (fun s op =>
      match op with
      | BatchOp.put k v => putCb s k v
      | BatchOp.delete k => deleteCb s k)
    st

/-- put_callback from batch.rs: reconstructs the typed key from the raw
key bytes via the codec reverse direction (K::from on the byte slice)
and invokes the visitor put callback with the typed key and the value
bytes. -/
def put_callback {K S : Type} (codec : Key K) (vis : WritebatchIterator K S)
    (st : S) (keyBytes : ByteSeq) (valBytes : ByteSeq) : S :=
  vis.put st (codec.fromBytes keyBytes) valBytes

/-- deleted_callback from batch.rs: reconstructs the typed key from the
raw key bytes via the codec reverse direction and invokes the visitor
deleted callback. -/
def deleted_callback {K S : Type} (codec : Key K)
    (vis : WritebatchIterator K S) (st : S) (keyBytes : ByteSeq) : S :=
  vis.deleted st (codec.fromBytes keyBytes)

/-- Writebatch::iterate from batch.rs: hands the visitor state to the
native walk together with the two callback adapters, and after the walk
returns hands the very same accumulated visitor state back to the
caller (the Box round-trip), together with the untouched batch. -/
def Writebatch.iterate {K S : Type} (codec : Key K) (b : Writebatch K)
    (vis : WritebatchIterator K S) (st : S) : Writebatch K × S :=
  (b, nativeBatchIterate (put_callback codec vis) (deleted_callback codec vis) b.ops st)

/-- A typed replay event as seen by a visitor: either a put of a typed
key and value bytes or a deletion of a typed key. -/
inductive VisitorEvent (K : Type)
  | put (key : K) (value : ByteSeq)
  | deleted (key : K)

/-- The typed event a staged raw operation decodes to at the callback
boundary: the key bytes go through the codec reverse direction. -/
def decodeOp {K : Type} (codec : Key K) : BatchOp → VisitorEvent K
  | BatchOp.put kb vb => VisitorEvent.put (codec.fromBytes kb) vb
  | BatchOp.delete kb => VisitorEvent.deleted (codec.fromBytes kb)

/-- Dispatch of one typed event to the matching visitor callback. -/
def applyEvent {K S : Type} (vis : WritebatchIterator K S) (st : S) :
    VisitorEvent K → S
  | VisitorEvent.put k v => vis.put st k v
  | VisitorEvent.deleted k => vis.deleted st k

/-- The recording visitor: its state is the list of typed events it has
been invoked with, in invocation order. -/
def traceVisitor (K : Type) : WritebatchIterator K (List (VisitorEvent K)) :=
  WritebatchIterator.mk
    (fun st k v => st ++ [VisitorEvent.put k v])
    (fun st k => st ++ [VisitorEvent.deleted k])

/-- A typed population call against a batch: the caller-side put or
delete invocation. -/
inductive BatchCall (K : Type)
  | put (key : K) (value : ByteSeq)
  | deleted (key : K)

/-- Dispatch of one population call to Writebatch::put or
Writebatch::delete. -/
def applyCall {K : Type} (codec : Key K) (b : Writebatch K) :
    BatchCall K → Writebatch K
  | BatchCall.put k v => Writebatch.put codec b k v
  | BatchCall.deleted k => Writebatch.delete codec b k

/-- Population of a batch by a sequence of put and delete calls, in
order. -/
def applyCalls {K : Type} (codec : Key K) (b : Writebatch K)
    (calls : List (BatchCall K)) : Writebatch K :=
  calls.foldl (applyCall codec) b

/-- The staged operation a population call appends. -/
def callOp {K : Type} (codec : Key K) : BatchCall K → BatchOp
  | BatchCall.put k v => BatchOp.put (codec.toBytes k) v
  | BatchCall.deleted k => BatchOp.delete (codec.toBytes k)

/-- Membership of a key in the compacted range. Modelled from the spec:
bound semantics belong to the engine; we take the closed interval in
the lexicographic key order. -/
def inRange (startB limitB k : ByteSeq) : Bool :=
  !ltBytes k startB && !ltBytes limitB k

/-- Journal compaction pass. Modelled from the spec: compaction is an
engine-internal reorganization of stored data over a key range; we
model it as collapsing, inside the range, every shadowed journal entry
and every deletion record, keeping only the newest live value per key.
The seen accumulator lists the in-range keys whose newest entry has
already been kept or dropped. -/
def compactAux (startB limitB : ByteSeq) : DBState → List ByteSeq → DBState
  | [], _ => []
  | (k, v) :: rest, seen =>
    if inRange startB limitB k then
      if k ∈ seen then compactAux startB limitB rest seen
      else
        match v with
        | some w => (k, some w) :: compactAux startB limitB rest (k :: seen)
        | none => compactAux startB limitB rest (k :: seen)
    else (k, v) :: compactAux startB limitB rest seen

/-- Engine entry point leveldb_compact_range. Modelled from the spec:
best-effort, non-failing, reorganizes storage over the byte range
without changing what any reader observes. -/
def engineCompactRange (db : DBState) (startB limitB : ByteSeq) : DBState :=
  compactAux startB limitB db []

/-- One compact-range request as received by the engine: the two byte
bounds. -/
structure CompactRequest where
  startBytes : ByteSeq
  limitBytes : ByteSeq

/-- Compaction::compact from compaction.rs: converts both typed bounds
to bytes via the codec (as_ref) and issues a single compact-range
request to the engine with those byte bounds; no value is returned and
no error is surfaced. The second component records the requests issued
to the engine. -/
def Compaction.compact {K : Type} (codec : Key K) (db : DBState)
    (start : K) (limit : K) : DBState × List CompactRequest :=
  (engineCompactRange db (codec.toBytes start) (codec.toBytes limit),
   [CompactRequest.mk (codec.toBytes start) (codec.toBytes limit)])

theorem nativeIterate_decodes {K S : Type} (codec : Key K)
    (vis : WritebatchIterator K S) :
    ∀ (ops : List BatchOp) (st : S),
      nativeBatchIterate (put_callback codec vis) (deleted_callback codec vis) ops st
        = (ops.map (decodeOp codec)).foldl (applyEvent vis) st := by
  intro ops
  induction ops with
  | nil => intro st; rfl
  | cons op rest ih =>
    intro st
    cases op with
    | put k v =>
      simpa [nativeBatchIterate, decodeOp, applyEvent, put_callback] using
        ih (vis.put st (codec.fromBytes k) v)
    | delete k =>
      simpa [nativeBatchIterate, decodeOp, applyEvent, deleted_callback] using
        ih (vis.deleted st (codec.fromBytes k))

theorem trace_foldl {K : Type} :
    ∀ (evs : List (VisitorEvent K)) (acc : List (VisitorEvent K)),
      evs.foldl (applyEvent (traceVisitor K)) acc = acc ++ evs := by
  intro evs
  induction evs with
  | nil => intro acc; simp
  | cons ev rest ih =>
    intro acc
    rw [List.foldl_cons, ih]
    cases ev with
    | put k v => simp [applyEvent, traceVisitor]
    | deleted k => simp [applyEvent, traceVisitor]

theorem applyCalls_ops {K : Type} (codec : Key K) :
    ∀ (calls : List (BatchCall K)) (b : Writebatch K),
      (applyCalls codec b calls).ops = b.ops ++ calls.map (callOp codec) := by
  intro calls
  induction calls with
  | nil => intro b; simp [applyCalls]
  | cons c rest ih =>
    intro b
    cases c with
    | put k v =>
      simp [applyCalls, applyCall, callOp, Writebatch.put] at ih ⊢
      rw [ih]
      simp
    | deleted k =>
      simp [applyCalls, applyCall, callOp, Writebatch.delete] at ih ⊢
      rw [ih]
      simp

theorem compactAux_seen (startB limitB q : ByteSeq) :
    ∀ (s : DBState) (seen : List ByteSeq),
      inRange startB limitB q = true → q ∈ seen →
      dbGet (compactAux startB limitB s seen) q = none := by
  intro s
  induction s with
  | nil => intro seen _ _; rfl
  | cons e rest ih =>
    intro seen hq hmem
    obtain ⟨k, v⟩ := e
    by_cases hk : inRange startB limitB k = true
    · by_cases hs : k ∈ seen
      · simp only [compactAux, hk, hs, if_true, if_pos hs]
        exact ih seen hq hmem
      · have hkq : k ≠ q := fun h => hs (h ▸ hmem)
        cases v with
        | some w =>
          simp only [compactAux, hk, if_true, if_neg hs, dbGet, if_neg hkq]
          exact ih (k :: seen) hq (List.mem_cons_of_mem _ hmem)
        | none =>
          simp only [compactAux, hk, if_true, if_neg hs]
          exact ih (k :: seen) hq (List.mem_cons_of_mem _ hmem)
    · have hkq : k ≠ q := by
        intro h
        rw [h] at hk
        exact hk hq
      simp only [compactAux, if_neg hk, dbGet, if_neg hkq]
      exact ih seen hq hmem

theorem compactAux_get (startB limitB q : ByteSeq) :
    ∀ (s : DBState) (seen : List ByteSeq), q ∉ seen →
      dbGet (compactAux startB limitB s seen) q = dbGet s q := by
  intro s
  induction s with
  | nil => intro seen _; rfl
  | cons e rest ih =>
    intro seen hout
    obtain ⟨k, v⟩ := e
    by_cases hk : inRange startB limitB k = true
    · by_cases hs : k ∈ seen
      · have hkq : k ≠ q := fun h => hout (h ▸ hs)
        simp only [compactAux, hk, if_true, if_pos hs, dbGet, if_neg hkq]
        exact ih seen hout
      · by_cases hkq : k = q
        · subst hkq
          cases v with
          | some w =>
            simp only [compactAux, hk, if_true, if_neg hs, dbGet, if_pos rfl]
          | none =>
            simp only [compactAux, hk, if_true, if_neg hs, dbGet, if_pos rfl]
            exact compactAux_seen startB limitB k rest (k :: seen) hk
              (List.mem_cons_self _ _)
        · have hout' : q ∉ k :: seen := by
            intro h
            rcases List.mem_cons.mp h with h1 | h2
            · exact hkq h1.symm
            · exact hout h2
          cases v with
          | some w =>
            simp only [compactAux, hk, if_true, if_neg hs, dbGet, if_neg hkq]
            exact ih (k :: seen) hout'
          | none =>
            simp only [compactAux, hk, if_true, if_neg hs, dbGet, if_neg hkq]
            exact ih (k :: seen) hout'
    · by_cases hkq : k = q
      · subst hkq
        simp [compactAux, hk, dbGet]
      · simp only [compactAux, if_neg hk, dbGet, if_neg hkq]
        exact ih seen hout

/-- C1: submitting a batch through the write path is all-or-nothing —
whatever error the engine reports, the outcome is either a success
whose state carries every staged operation applied as one unit, or a
failure whose state is exactly the state before submission; no state
reflecting only part of the batch is ever observable. -/
theorem write_all_or_nothing {K : Type} (engineErr : Option String)
    (db : DBState) (options : WriteOptions) (b : Writebatch K) :
    ((Database.write engineErr db options b).result = Except.ok () ∧
     (Database.write engineErr db options b).state = applyBatch db b.ops) ∨
    ((Database.write engineErr db options b).result ≠ Except.ok () ∧
     (Database.write engineErr db options b).state = db) := by
  cases engineErr with
  | none => exact Or.inl ⟨rfl, rfl⟩
  | some m => exact Or.inr ⟨by simp [Database.write], rfl⟩

/-- C2: iterate replays every staged operation in append order — for
every visitor, the result is the fold of the visitor callbacks over the
typed events obtained by decoding each staged operation through the
codec reverse direction, so only typed keys reach the visitor; and the
recording visitor receives exactly the decoded event per operation, in
order. -/
theorem iterate_replays_typed_in_order {K S : Type} (codec : Key K)
    (b : Writebatch K) (vis : WritebatchIterator K S) (st : S) :
    (Writebatch.iterate codec b vis st).2
        = (b.ops.map (decodeOp codec)).foldl (applyEvent vis) st ∧
    (Writebatch.iterate codec b (traceVisitor K)
        ([] : List (VisitorEvent K))).2 = b.ops.map (decodeOp codec) := by
  constructor
  · exact nativeIterate_decodes codec vis b.ops st
  · rw [show (Writebatch.iterate codec b (traceVisitor K)
        ([] : List (VisitorEvent K))).2
          = nativeBatchIterate (put_callback codec (traceVisitor K))
              (deleted_callback codec (traceVisitor K)) b.ops [] from rfl,
      nativeIterate_decodes codec (traceVisitor K) b.ops, trace_foldl]
    simp

/-- C3: every read through a snapshot, point get as well as each of the
three iteration forms, observes exactly the engine state at snapshot
creation, whatever writes are applied to the live engine afterwards. -/
theorem snapshot_observes_creation_state {K : Type} (codec : Key K)
    (db : DBState) (later : List BatchOp) (options : ReadOptions) (key : K) :
    Snapshot.get codec none (applyBatch db later) (Database.snapshot db)
        options key = Except.ok (dbGet db (codec.toBytes key)) ∧
    Snapshot.iter codec (applyBatch db later) (Database.snapshot db) options
        = Database.iter codec db
            (ReadOptions.mk options.fillCache options.verifyChecksums none) ∧
    Snapshot.keys_iter codec (applyBatch db later) (Database.snapshot db) options
        = Database.keys_iter codec db
            (ReadOptions.mk options.fillCache options.verifyChecksums none) ∧
    Snapshot.value_iter codec (applyBatch db later) (Database.snapshot db) options
        = Database.value_iter codec db
            (ReadOptions.mk options.fillCache options.verifyChecksums none) := by
  exact ⟨rfl, rfl, rfl, rfl⟩

/-- C4: each snapshot read operation amends the supplied read options
to reference the snapshot and delegates to the engine-handle operation
of the same name with the amended options; get returns the value when
the key is present in the snapshot state, none when absent, and the
typed Error when the engine fails. -/
theorem snapshot_reads_amend_and_delegate {K : Type} (codec : Key K)
    (engineErr : Option String) (db : DBState) (s : Snapshot)
    (options : ReadOptions) (key : K) :
    Snapshot.get codec engineErr db s options key
        = Database.get codec engineErr db (setSnapshot options s) key ∧
    Snapshot.iter codec db s options
        = Database.iter codec db (setSnapshot options s) ∧
    Snapshot.keys_iter codec db s options
        = Database.keys_iter codec db (setSnapshot options s) ∧
    Snapshot.value_iter codec db s options
        = Database.value_iter codec db (setSnapshot options s) ∧
    Snapshot.get codec engineErr db s options key
        = (match engineErr with
           | none => Except.ok (dbGet s.frozen (codec.toBytes key))
           | some m => Except.error (Error.mk m)) := by
  refine ⟨rfl, rfl, rfl, rfl, ?_⟩
  cases engineErr with
  | none => rfl
  | some m => rfl

/-- C5: the write path returns Ok exactly when the engine error
out-pointer is the null pointer, otherwise an Error carrying the engine
diagnostic text; the native write entry point is invoked exactly once
per submission, never retried. -/
theorem write_result_mirrors_engine_error {K : Type} (engineErr : Option String)
    (db : DBState) (options : WriteOptions) (b : Writebatch K) :
    ((Database.write engineErr db options b).result = Except.ok ()
        ↔ engineErr = none) ∧
    (Database.write engineErr db options b).result
        = (match engineErr with
           | none => Except.ok ()
           | some m => Except.error (Error.mk m)) ∧
    (Database.write engineErr db options b).engineCalls = 1 := by
  cases engineErr with
  | none => simp [Database.write]
  | some m => simp [Database.write]

/-- C6: clear resets a batch to zero operations while keeping the same
native resource — a subsequent iterate hands every visitor its state
back untouched (zero invocations), and populating a cleared batch with
any sequence of put and delete calls stages exactly the operations a
freshly created batch populated with the same calls would stage. -/
theorem clear_resets_to_fresh {K S : Type} (codec : Key K) (b : Writebatch K)
    (vis : WritebatchIterator K S) (st : S) (calls : List (BatchCall K))
    (id : Nat) :
    (Writebatch.clear b).ops = [] ∧
    (Writebatch.iterate codec (Writebatch.clear b) vis st).2 = st ∧
    (applyCalls codec (Writebatch.clear b) calls).ops
        = (applyCalls codec (Writebatch.new K id) calls).ops ∧
    (Writebatch.clear b).resourceId = b.resourceId := by
  refine ⟨rfl, rfl, ?_, rfl⟩
  rw [applyCalls_ops, applyCalls_ops]
  simp [Writebatch.clear, Writebatch.new]

/-- C7: iterate hands the accumulated visitor state back to the caller
after replay — the second component of the result is exactly what the
callbacks accumulated, and the returned visitor state can be fed into a
further iterate, which continues the same accumulation across both
batches. -/
theorem iterate_roundtrips_visitor {K S : Type} (codec : Key K)
    (b b2 : Writebatch K) (vis : WritebatchIterator K S) (st : S) :
    (Writebatch.iterate codec b vis st).2
        = nativeBatchIterate (put_callback codec vis)
            (deleted_callback codec vis) b.ops st ∧
    (Writebatch.iterate codec b2 vis ((Writebatch.iterate codec b vis st).2)).2
        = nativeBatchIterate (put_callback codec vis)
            (deleted_callback codec vis) (b.ops ++ b2.ops) st := by
  refine ⟨rfl, ?_⟩
  show nativeBatchIterate (put_callback codec vis) (deleted_callback codec vis)
      b2.ops (nativeBatchIterate (put_callback codec vis)
        (deleted_callback codec vis) b.ops st) = _
  simp only [nativeBatchIterate]
  rw [List.foldl_append]

/-- C8: compact converts both typed bounds to bytes via the codec and
issues exactly one compact-range request with those byte bounds; no
error is surfaced (the result type has no error component) and every
point read observes the same value after compaction as before, for any
range, in particular for a range containing no keys. -/
theorem compact_single_request_preserves_reads {K : Type} (codec : Key K)
    (db : DBState) (start : K) (limit : K) (q : ByteSeq) :
    (Compaction.compact codec db start limit).2
        = [CompactRequest.mk (codec.toBytes start) (codec.toBytes limit)] ∧
    dbGet (Compaction.compact codec db start limit).1 q = dbGet db q := by
  refine ⟨rfl, ?_⟩
  exact compactAux_get (codec.toBytes start) (codec.toBytes limit) q db []
    (List.not_mem_nil q)

/-- C9: every snapshot read operation unconditionally overwrites the
snapshot field of the caller-supplied read options — passing options
that already reference a different snapshot gives the same result as
passing options with no snapshot at all, and the read observes the
state of the snapshot the operation was invoked on, never the one the
caller had referenced. -/
theorem snapshot_overrides_caller_snapshot {K : Type} (codec : Key K)
    (engineErr : Option String) (db : DBState) (s s2 : Snapshot)
    (fc vc : Bool) (key : K) :
    Snapshot.get codec engineErr db s (ReadOptions.mk fc vc (some s2)) key
        = Snapshot.get codec engineErr db s (ReadOptions.mk fc vc none) key ∧
    Snapshot.iter codec db s (ReadOptions.mk fc vc (some s2))
        = Snapshot.iter codec db s (ReadOptions.mk fc vc none) ∧
    Snapshot.keys_iter codec db s (ReadOptions.mk fc vc (some s2))
        = Snapshot.keys_iter codec db s (ReadOptions.mk fc vc none) ∧
    Snapshot.value_iter codec db s (ReadOptions.mk fc vc (some s2))
        = Snapshot.value_iter codec db s (ReadOptions.mk fc vc none) ∧
    Snapshot.get codec none db s (ReadOptions.mk fc vc (some s2)) key
        = Except.ok (dbGet s.frozen (codec.toBytes key)) := by
  exact ⟨rfl, rfl, rfl, rfl, rfl⟩

/-- C10: iterate leaves the staged operation sequence untouched — the
batch handed back is the batch that was iterated, a second iterate over
it replays the same operations with the same result, and submitting it
through the write path gives exactly the outcome of submitting the
original batch. -/
theorem iterate_preserves_batch_contents {K S : Type} (codec : Key K)
    (engineErr : Option String) (db : DBState) (woptions : WriteOptions)
    (b : Writebatch K) (vis : WritebatchIterator K S) (st st2 : S) :
    (Writebatch.iterate codec b vis st).1 = b ∧
    (Writebatch.iterate codec ((Writebatch.iterate codec b vis st).1) vis st2).2
        = (Writebatch.iterate codec b vis st2).2 ∧
    Database.write engineErr db woptions ((Writebatch.iterate codec b vis st).1)
        = Database.write engineErr db woptions b := by
  exact ⟨rfl, rfl, rfl⟩
